import Mathlib

/-!
Shallow embedding of `src/v2.rs` (the event-sourced aggregate repository of
rust-ddd-traits-lab), covering the concrete test-module implementation:
`AggregateEvent`, `AggregateImpl::replay`, and `RepositoryImpl::{find, store}`.

Conventions of the embedding:
* `AggregateId` (a newtype over `String`) is modelled as `String`;
  `AggregateVersion` (a newtype over `u16`) is modelled as `Nat` — the code
  paths modelled here only copy and compare versions, never compute with
  them, so no overflow can occur and `Nat` is faithful on the `u16` range.
* The two `Vec`s guarded by mutexes in `RepositoryImpl` become plain lists
  in a `RepoState` record; the `async` methods become pure state-passing
  functions.  `store` holds the `aggregates` mutex guard for its whole body,
  so concurrent calls are serialized; `store` is therefore modelled as an
  atomic state transition returning `(result, next state)` — error returns
  in the Rust code happen before any mutation, which the embedding renders
  by pairing the error with the unchanged input state.
* Rust error values are `std::io::Error` with distinguishing messages; they
  are modelled as inductive types: `ReplayError.emptyLog` is the
  "No events provided" error, `ReplayError.invalidFirstEvent` and
  `ReplayError.invalidSubsequentEvent` are the "Invalid event" errors raised
  at the first-event check and at the in-loop check respectively,
  `StoreError.alreadyExists` is "Aggregate already exists" and
  `StoreError.versionConflict` is "Version mismatch".
-/

namespace RustDddTraitsLab

/-- Rust `enum AggregateEvent { Created(AggregateCreated), Updated(AggregateUpdated) }`,
each payload carrying `id: String` and `version: u16`. -/
inductive AggregateEvent where
  | created (id : String) (version : Nat)
  | updated (id : String) (version : Nat)
deriving DecidableEq, Repr

/-- Rust `impl Event for AggregateEvent`, method `id()`. -/
def AggregateEvent.id : AggregateEvent → String
  | created i _ => i
  | updated i _ => i

/-- Rust `impl Event for AggregateEvent`, method `version()`. -/
def AggregateEvent.version : AggregateEvent → Nat
  | created _ v => v
  | updated _ v => v

/-- Whether the event is the initiating `Created` variant. -/
def AggregateEvent.isCreated : AggregateEvent → Bool
  | created _ _ => true
  | updated _ _ => false

/-- Whether the event is the continuation `Updated` variant. -/
def AggregateEvent.isUpdated : AggregateEvent → Bool
  | created _ _ => false
  | updated _ _ => true

/-- Rust `struct AggregateImpl { id: AggregateId, version: AggregateVersion }`. -/
structure AggregateImpl where
  id : String
  version : Nat
deriving DecidableEq, Repr

/-- The three structural replay failures of `AggregateImpl::replay`
(`std::io::Error` values in the source, distinguished by raise site). -/
inductive ReplayError where
  | emptyLog
  | invalidFirstEvent
  | invalidSubsequentEvent
deriving DecidableEq, Repr

/-- The two conflict failures of `RepositoryImpl::store`
("Aggregate already exists" and "Version mismatch" in the source). -/
inductive StoreError where
  | alreadyExists
  | versionConflict
deriving DecidableEq, Repr

/-- The `for event in iter` loop of `AggregateImpl::replay`: starting from the
aggregate built from the first event, a `Created` event aborts with the
"Invalid event" error and an `Updated` event overwrites the version. -/
def replayRest : AggregateImpl → List AggregateEvent → Except ReplayError AggregateImpl
  | agg, [] => Except.ok agg
  | _, AggregateEvent.created _ _ :: _ => Except.error ReplayError.invalidSubsequentEvent
  | agg, AggregateEvent.updated _ v :: rest => replayRest { agg with version := v } rest

/-- Rust `AggregateImpl::replay`: the first event must exist and be `Created`
(establishing id and starting version), then the loop `replayRest` runs. -/
def replay : List AggregateEvent → Except ReplayError AggregateImpl
  | [] => Except.error ReplayError.emptyLog
  | AggregateEvent.created i v :: rest => replayRest { id := i, version := v } rest
  | AggregateEvent.updated _ _ :: _ => Except.error ReplayError.invalidFirstEvent

/-- The state behind the two mutexes of `RepositoryImpl`:
`aggregates: Vec<(AggregateId, AggregateVersion)>` (the version markers) and
`events: Vec<(AggregateId, Vec<AggregateEvent>)>` (the per-identity logs). -/
structure RepoState where
  aggregates : List (String × Nat)
  events : List (String × List AggregateEvent)
deriving DecidableEq, Repr

/-- The current version marker for `id`: the second component of the first
`aggregates` entry whose first component equals `id` (the lookup both `find`
and `store` perform with `.iter().find(|it| it.0 == *id)`). -/
def markerOf (s : RepoState) (id : String) : Option Nat :=
  (s.aggregates.find? (fun it => it.fst == id)).map Prod.snd

/-- The persisted event log for `id`: the second component of the first
`events` entry whose first component equals `id`. -/
def logOf (s : RepoState) (id : String) : Option (List AggregateEvent) :=
  (s.events.find? (fun it => it.fst == id)).map Prod.snd

/-- Rust `RepositoryImpl::find`: absent when no marker entry exists for `id`,
absent when a marker exists but no `events` entry does, otherwise
`AggregateImpl::replay` of the stored log, mapped into `Some`. -/
def find (s : RepoState) (id : String) : Except ReplayError (Option AggregateImpl) :=
  match s.aggregates.find? (fun it => it.fst == id) with
  | none => Except.ok none
  | some _ =>
    match s.events.find? (fun it => it.fst == id) with
    | none => Except.ok none
    | some (_, evs) => (replay evs).map some

/-- The in-place `it.1 = last_event.version()` of the update branch of
`store`: replace the version of the first marker entry keyed by `id`. -/
def setMarker : List (String × Nat) → String → Nat → List (String × Nat)
  | [], _, _ => []
  | (k, v) :: rest, id, nv =>
    if k == id then (k, nv) :: rest else (k, v) :: setMarker rest id nv

/-- The `for new_event in new_events { events.push(...) }` loop of `store`:
append `new` to the log of the first `events` entry keyed by `id`. -/
def appendFirst : List (String × List AggregateEvent) → String → List AggregateEvent → List (String × List AggregateEvent)
  | [], _, _ => []
  | (k, evs) :: rest, id, new =>
    if k == id then (k, evs ++ new) :: rest else (k, evs) :: appendFirst rest id new

/-- The event-log half of `store`: if no `events` entry is keyed by `id`
(`events.iter().all(|it| it.0 != *id)`), push a fresh `(id, vec![])` entry
first; then append the new events to the entry keyed by `id`. -/
def appendLog (l : List (String × List AggregateEvent)) (id : String) (new : List AggregateEvent) : List (String × List AggregateEvent) :=
  appendFirst (if l.all (fun it => !(it.fst == id)) then l ++ [(id, [])] else l) id new

/-- Rust `RepositoryImpl::store`.  Empty `new_events` returns `Ok(())` at once.
With `expected_version = None` (create): fails with "Aggregate already exists"
if any marker entry is keyed by `id`, else pushes a marker
`(last_event.id(), last_event.version())` — keyed by the last event's own id —
and appends the events under `id`.  With `expected_version = Some(v)`
(update): the first marker entry keyed by `id` must exist and hold exactly
`v`, else "Version mismatch"; on success that marker becomes the last event's
version and the events are appended under `id`. -/
def store (s : RepoState) (id : String) (expectedVersion : Option Nat) (newEvents : List AggregateEvent) : Except StoreError Unit × RepoState :=
  match newEvents.getLast? with
  | none => (Except.ok (), s)
  | some lastEvent =>
    match expectedVersion with
    | none =>
      if s.aggregates.any (fun it => it.fst == id) then
        (Except.error StoreError.alreadyExists, s)
      else
        (Except.ok (),
          { aggregates := s.aggregates ++ [(lastEvent.id, lastEvent.version)],
            events := appendLog s.events id newEvents })
    | some expected =>
      match s.aggregates.find? (fun it => it.fst == id) with
      | some it =>
        if it.snd == expected then
          (Except.ok (),
            { aggregates := setMarker s.aggregates id lastEvent.version,
              events := appendLog s.events id newEvents })
        else (Except.error StoreError.versionConflict, s)
      | none => (Except.error StoreError.versionConflict, s)

/-- A well-formed event sequence in the sense of the replay contract:
non-empty, first event the initiating `Created` variant, all later events
continuation `Updated` variants. -/
def wellFormedB (E : List AggregateEvent) : Bool :=
  match E with
  | [] => false
  | e :: rest => e.isCreated && rest.all AggregateEvent.isUpdated

/-- Every event is exactly one of the two variants. -/
lemma isCreated_eq_not_isUpdated (e : AggregateEvent) : e.isCreated = !e.isUpdated := by
  cases e <;> rfl

/-- Replaying a run of continuation events succeeds, keeps the id, and leaves
the version of the last continuation event (or the starting version when the
run is empty). -/
lemma replayRest_all_updated :
    ∀ (l : List AggregateEvent) (agg : AggregateImpl),
      l.all AggregateEvent.isUpdated = true →
      replayRest agg l =
        Except.ok ⟨agg.id, ((l.getLast?).map AggregateEvent.version).getD agg.version⟩ := by
  intro l
  induction l with
  | nil => intro agg _; simp [replayRest]
  | cons e rest ih =>
    intro agg h
    simp only [List.all_cons, Bool.and_eq_true] at h
    cases e with
    | created i v => simp [AggregateEvent.isUpdated] at h
    | updated i v =>
      rw [replayRest, ih _ h.2]
      cases rest with
      | nil => simp [AggregateEvent.version]
      | cons f rest =>
        cases hl : (f :: rest).getLast? with
        | none => rw [List.getLast?_eq_none_iff] at hl; exact absurd hl (by simp)
        | some le => simp [List.getLast?_cons_cons, hl]

/-- A run containing an initiating event makes the replay loop abort with the
`invalidSubsequentEvent` error, whatever the accumulated aggregate. -/
lemma replayRest_any_created :
    ∀ (l : List AggregateEvent) (agg : AggregateImpl),
      l.any AggregateEvent.isCreated = true →
      replayRest agg l = Except.error ReplayError.invalidSubsequentEvent := by
  intro l
  induction l with
  | nil => intro agg h; simp at h
  | cons e rest ih =>
    intro agg h
    cases e with
    | created i v => rfl
    | updated i v =>
      simp only [List.any_cons, AggregateEvent.isCreated, Bool.false_or] at h
      exact ih _ h

/-- A run of events either consists of continuation events only or contains an
initiating event. -/
lemma all_updated_or_any_created (l : List AggregateEvent) :
    l.all AggregateEvent.isUpdated = true ∨ l.any AggregateEvent.isCreated = true := by
  cases h : l.all AggregateEvent.isUpdated with
  | true => exact Or.inl rfl
  | false =>
    right
    rw [List.all_eq_false] at h
    obtain ⟨e, he, hne⟩ := h
    rw [List.any_eq_true]
    refine ⟨e, he, ?_⟩
    cases e with
    | created i v => rfl
    | updated i v => simp [AggregateEvent.isUpdated] at hne

/-- A well-formed sequence is an initiating event followed by continuation
events only. -/
lemma wellFormedB_iff (E : List AggregateEvent) :
    wellFormedB E = true ↔
      ∃ i v rest, E = AggregateEvent.created i v :: rest ∧
        rest.all AggregateEvent.isUpdated = true := by
  constructor
  · intro h
    cases E with
    | nil => simp [wellFormedB] at h
    | cons e rest =>
      cases e with
      | created i v =>
        simp only [wellFormedB, AggregateEvent.isCreated, Bool.true_and] at h
        exact ⟨i, v, rest, rfl, h⟩
      | updated i v => simp [wellFormedB, AggregateEvent.isCreated] at h
  · rintro ⟨i, v, rest, rfl, h⟩
    simp [wellFormedB, AggregateEvent.isCreated, h]

/-- Replay of a well-formed sequence succeeds with the version of the last
event. -/
lemma replay_wellFormed (E : List AggregateEvent) (h : wellFormedB E = true) :
    ∃ a le, replay E = Except.ok a ∧ E.getLast? = some le ∧
      a.version = le.version := by
  obtain ⟨i, v, rest, rfl, hall⟩ := (wellFormedB_iff E).mp h
  rw [replay, replayRest_all_updated rest _ hall]
  cases hl : rest.getLast? with
  | none =>
    rw [List.getLast?_eq_none_iff] at hl
    subst hl
    exact ⟨_, _, rfl, rfl, rfl⟩
  | some le =>
    refine ⟨_, le, rfl, ?_, by simp [hl]⟩
    cases rest with
    | nil => simp at hl
    | cons f rest => simpa [List.getLast?_cons_cons] using hl

/-- The duplicate-check of the create branch agrees with the marker lookup. -/
lemma any_key_eq_isSome (l : List (String × Nat)) (id : String) :
    l.any (fun it => it.fst == id) = (l.find? (fun it => it.fst == id)).isSome := by
  rw [Bool.eq_iff_iff]
  simp [List.any_eq_true, List.find?_isSome]

/-- The missing-entry check of the event-log half agrees with the log lookup. -/
lemma all_not_key_iff_find?_none {β : Type} (l : List (String × β)) (id : String) :
    l.all (fun it => !(it.fst == id)) = true ↔
      l.find? (fun it => it.fst == id) = none := by
  simp [List.all_eq_true, List.find?_eq_none]

/-- Overwriting the first marker keyed by `id` rewrites exactly that entry in
the lookup. -/
lemma setMarker_find? (l : List (String × Nat)) (id : String) (nv : Nat) :
    (setMarker l id nv).find? (fun it => it.fst == id) =
      (l.find? (fun it => it.fst == id)).map (fun p => (p.fst, nv)) := by
  induction l with
  | nil => simp [setMarker]
  | cons hd tl ih =>
    obtain ⟨k, v⟩ := hd
    cases hk : (k == id) with
    | true => simp [setMarker, hk]
    | false => simp [setMarker, hk, ih]

/-- Appending to the first log entry keyed by `id` rewrites exactly that entry
in the lookup. -/
lemma appendFirst_find? (l : List (String × List AggregateEvent)) (id : String)
    (new : List AggregateEvent) :
    (appendFirst l id new).find? (fun it => it.fst == id) =
      (l.find? (fun it => it.fst == id)).map (fun p => (p.fst, p.snd ++ new)) := by
  induction l with
  | nil => simp [appendFirst]
  | cons hd tl ih =>
    obtain ⟨k, evs⟩ := hd
    cases hk : (k == id) with
    | true => simp [appendFirst, hk]
    | false => simp [appendFirst, hk, ih]

/-- The event-log half of `store` always leaves the log for `id` equal to the
old log (empty when missing) followed by the new events. -/
lemma appendLog_find? (l : List (String × List AggregateEvent)) (id : String)
    (new : List AggregateEvent) :
    ((appendLog l id new).find? (fun it => it.fst == id)).map Prod.snd =
      some ((((l.find? (fun it => it.fst == id)).map Prod.snd).getD []) ++ new) := by
  unfold appendLog
  cases h : l.all (fun it => !(it.fst == id)) with
  | true =>
    have hn : l.find? (fun it => it.fst == id) = none :=
      (all_not_key_iff_find?_none l id).mp h
    simp [appendFirst_find?, List.find?_append, hn]
  | false =>
    have hs : (l.find? (fun it => it.fst == id)).isSome := by
      rw [List.all_eq_false] at h
      obtain ⟨x, hx, hnx⟩ := h
      rw [List.find?_isSome]
      exact ⟨x, hx, by simpa using hnx⟩
    obtain ⟨p, hp⟩ := Option.isSome_iff_exists.mp hs
    simp [appendFirst_find?, hp]

/-- Unfolding of `store` on the failing create branch. -/
lemma store_create_conflict (s : RepoState) (id : String) (E : List AggregateEvent)
    (le : AggregateEvent) (hE : E.getLast? = some le)
    (h : s.aggregates.any (fun it => it.fst == id) = true) :
    store s id none E = (Except.error StoreError.alreadyExists, s) := by
  unfold store
  rw [hE]
  simp [h]

/-- Unfolding of `store` on the successful create branch. -/
lemma store_create_ok (s : RepoState) (id : String) (E : List AggregateEvent)
    (le : AggregateEvent) (hE : E.getLast? = some le)
    (h : s.aggregates.any (fun it => it.fst == id) = false) :
    store s id none E =
      (Except.ok (),
        ⟨s.aggregates ++ [(le.id, le.version)], appendLog s.events id E⟩) := by
  unfold store
  rw [hE]
  simp [h]

/-- Unfolding of `store` on the successful update branch. -/
lemma store_update_ok (s : RepoState) (id : String) (v : Nat)
    (E : List AggregateEvent) (le : AggregateEvent) (hE : E.getLast? = some le)
    (hm : markerOf s id = some v) :
    store s id (some v) E =
      (Except.ok (),
        ⟨setMarker s.aggregates id le.version, appendLog s.events id E⟩) := by
  unfold markerOf at hm
  cases hfind : s.aggregates.find? (fun it => it.fst == id) with
  | none => rw [hfind] at hm; simp at hm
  | some p =>
    rw [hfind] at hm
    simp only [Option.map_some'] at hm
    injection hm with hv
    unfold store
    rw [hE]
    simp [hfind, hv]

/-- Unfolding of `store` on the failing update branch. -/
lemma store_update_conflict (s : RepoState) (id : String) (v : Nat)
    (E : List AggregateEvent) (le : AggregateEvent) (hE : E.getLast? = some le)
    (hm : markerOf s id ≠ some v) :
    store s id (some v) E = (Except.error StoreError.versionConflict, s) := by
  unfold markerOf at hm
  unfold store
  rw [hE]
  cases hfind : s.aggregates.find? (fun it => it.fst == id) with
  | none => simp
  | some p =>
    rw [hfind] at hm
    simp only [Option.map_some'] at hm
    have hv : p.snd ≠ v := fun hc => hm (by rw [hc])
    simp [hv]

/-- A non-empty list has a last element. -/
lemma getLast?_isSome_of_ne_nil {α : Type} (l : List α) (h : l ≠ []) :
    ∃ a, l.getLast? = some a := by
  cases hl : l.getLast? with
  | none => rw [List.getLast?_eq_none_iff] at hl; exact absurd hl h
  | some a => exact ⟨a, rfl⟩

/-- C1: for every identity `id`, expected version `v` and non-empty event
sequence `E`, `store id (some v) E` succeeds if and only if a marker entry for
`id` exists and holds exactly `v`; in every other case (including when no
stream exists for `id` at all) it fails with `versionConflict`, never with
`alreadyExists`. -/
theorem c1_extend_succeeds_iff_marker_matches (s : RepoState) (id : String)
    (v : Nat) (E : List AggregateEvent) (h : E ≠ []) :
    ((store s id (some v) E).fst = Except.ok () ↔ markerOf s id = some v) ∧
    (markerOf s id ≠ some v →
      (store s id (some v) E).fst = Except.error StoreError.versionConflict) := by
  obtain ⟨le, hE⟩ := getLast?_isSome_of_ne_nil E h
  by_cases hm : markerOf s id = some v
  · rw [store_update_ok s id v E le hE hm]
    exact ⟨⟨fun _ => hm, fun _ => rfl⟩, fun hc => absurd hm hc⟩
  · rw [store_update_conflict s id v E le hE hm]
    refine ⟨?_, fun _ => rfl⟩
    simp [hm]

/-- Witness for C1 at a concrete repository state. -/
theorem c1_witness :
    ((store ⟨[("1", 1)], []⟩ "1" (some 1) [AggregateEvent.updated "1" 2]).fst =
        Except.ok () ↔ markerOf ⟨[("1", 1)], []⟩ "1" = some 1) ∧
    (markerOf ⟨[("1", 1)], []⟩ "1" ≠ some 1 →
      (store ⟨[("1", 1)], []⟩ "1" (some 1) [AggregateEvent.updated "1" 2]).fst =
        Except.error StoreError.versionConflict) :=
  c1_extend_succeeds_iff_marker_matches ⟨[("1", 1)], []⟩ "1" 1
    [AggregateEvent.updated "1" 2] (List.cons_ne_nil _ _)

/-- C6: storing an empty event sequence always succeeds, performs no version
check, leaves the state unchanged, and hence leaves `find` unchanged. -/
theorem c6_store_empty_noop (s : RepoState) (id : String) (ev : Option Nat) :
    store s id ev [] = (Except.ok (), s) ∧
      find (store s id ev []).snd id = find s id :=
  ⟨rfl, rfl⟩

/-- C7: a failing `store` call returns the repository state unchanged — no
log entry is appended and no marker is created or modified. -/
theorem c7_store_failure_preserves_state (s : RepoState) (id : String)
    (ev : Option Nat) (E : List AggregateEvent) (e : StoreError)
    (h : (store s id ev E).fst = Except.error e) :
    (store s id ev E).snd = s := by
  cases hE : E.getLast? with
  | none => unfold store; rw [hE]
  | some le =>
    cases ev with
    | none =>
      cases ha : s.aggregates.any (fun it => it.fst == id) with
      | true => rw [store_create_conflict s id E le hE ha]
      | false => rw [store_create_ok s id E le hE ha] at h; simp at h
    | some v =>
      by_cases hm : markerOf s id = some v
      · rw [store_update_ok s id v E le hE hm] at h; simp at h
      · rw [store_update_conflict s id v E le hE hm]

/-- Witness for C7: a conflicting store on an empty repository leaves it
empty. -/
theorem c7_witness :
    (store ⟨[], []⟩ "1" (some 1) [AggregateEvent.updated "1" 2]).snd =
      (⟨[], []⟩ : RepoState) :=
  c7_store_failure_preserves_state ⟨[], []⟩ "1" (some 1)
    [AggregateEvent.updated "1" 2] StoreError.versionConflict rfl

/-- C2 counterexample: an initiating store whose last event carries a foreign
identity succeeds, yet it creates no stream for the parameter identity — the
marker is keyed by the event's own id, so `find` on the parameter identity
still reports absent.  This refutes "on success it creates the stream for
`id` [and] records the last event of E's version as the current version
marker". -/
theorem c2_counterexample :
    (store ⟨[], []⟩ "1" none [AggregateEvent.created "2" 1]).fst = Except.ok () ∧
    markerOf (store ⟨[], []⟩ "1" none [AggregateEvent.created "2" 1]).snd "1" = none ∧
    find (store ⟨[], []⟩ "1" none [AggregateEvent.created "2" 1]).snd "1" =
      Except.ok none :=
  ⟨rfl, rfl, rfl⟩

/-- C2 amended: `store id none E` (E non-empty) succeeds iff no marker entry
for `id` exists, failing with `alreadyExists` otherwise; on success it pushes
the marker entry `(last.id, last.version)` — keyed by the last event's own
identity — and appends `E` to the log under `id`; when the last event's
identity equals `id` this does record the last event's version as the current
marker for `id`. -/
theorem c2_initiate (s : RepoState) (id : String) (E : List AggregateEvent)
    (le : AggregateEvent) (hE : E.getLast? = some le) :
    ((store s id none E).fst = Except.ok () ↔ markerOf s id = none) ∧
    (markerOf s id ≠ none →
      (store s id none E).fst = Except.error StoreError.alreadyExists) ∧
    (markerOf s id = none →
      (store s id none E).snd.aggregates = s.aggregates ++ [(le.id, le.version)] ∧
      logOf (store s id none E).snd id = some ((logOf s id).getD [] ++ E) ∧
      (le.id = id → markerOf (store s id none E).snd id = some le.version)) := by
  by_cases hm : markerOf s id = none
  · have hfind : s.aggregates.find? (fun it => it.fst == id) = none := by
      unfold markerOf at hm
      exact Option.map_eq_none'.mp hm
    have ha : s.aggregates.any (fun it => it.fst == id) = false := by
      rw [any_key_eq_isSome, hfind]
      rfl
    rw [store_create_ok s id E le hE ha]
    refine ⟨⟨fun _ => hm, fun _ => rfl⟩, fun hc => absurd hm hc, fun _ => ⟨rfl, ?_, ?_⟩⟩
    · unfold logOf
      exact appendLog_find? s.events id E
    · intro hid
      unfold markerOf
      simp [List.find?_append, hfind, hid]
  · have ha : s.aggregates.any (fun it => it.fst == id) = true := by
      rw [any_key_eq_isSome]
      unfold markerOf at hm
      cases hfind : s.aggregates.find? (fun it => it.fst == id) with
      | none => exact absurd (by rw [hfind]; rfl) hm
      | some p => rfl
    rw [store_create_conflict s id E le hE ha]
    refine ⟨?_, fun _ => rfl, fun hc => absurd hc hm⟩
    constructor
    · intro hcon; simp at hcon
    · intro hcon; exact absurd hcon hm

/-- Witness for C2's amended theorem at a concrete initiating store. -/
theorem c2_witness :
    ((store ⟨[], []⟩ "1" none [AggregateEvent.created "1" 1]).fst = Except.ok () ↔
        markerOf ⟨[], []⟩ "1" = none) ∧
    (markerOf ⟨[], []⟩ "1" ≠ none →
      (store ⟨[], []⟩ "1" none [AggregateEvent.created "1" 1]).fst =
        Except.error StoreError.alreadyExists) ∧
    (markerOf ⟨[], []⟩ "1" = none →
      (store ⟨[], []⟩ "1" none [AggregateEvent.created "1" 1]).snd.aggregates =
        [] ++ [((AggregateEvent.created "1" 1).id, (AggregateEvent.created "1" 1).version)] ∧
      logOf (store ⟨[], []⟩ "1" none [AggregateEvent.created "1" 1]).snd "1" =
        some ((logOf ⟨[], []⟩ "1").getD [] ++ [AggregateEvent.created "1" 1]) ∧
      ((AggregateEvent.created "1" 1).id = "1" →
        markerOf (store ⟨[], []⟩ "1" none [AggregateEvent.created "1" 1]).snd "1" =
          some (AggregateEvent.created "1" 1).version)) :=
  c2_initiate ⟨[], []⟩ "1" [AggregateEvent.created "1" 1]
    (AggregateEvent.created "1" 1) rfl

/-- C3: replay of a well-formed event sequence succeeds, is deterministic
(equal inputs give equal results), and yields an aggregate whose version is
the version of the last event. -/
theorem c3_replay_deterministic_last_version (E : List AggregateEvent)
    (h : wellFormedB E = true) :
    replay E = replay E ∧
    ∃ a le, replay E = Except.ok a ∧ E.getLast? = some le ∧
      a.version = le.version :=
  ⟨rfl, replay_wellFormed E h⟩

/-- Witness for C3 on a concrete well-formed sequence. -/
theorem c3_witness :
    replay [AggregateEvent.created "1" 1, AggregateEvent.updated "1" 2] =
      replay [AggregateEvent.created "1" 1, AggregateEvent.updated "1" 2] ∧
    ∃ a le,
      replay [AggregateEvent.created "1" 1, AggregateEvent.updated "1" 2] =
        Except.ok a ∧
      [AggregateEvent.created "1" 1, AggregateEvent.updated "1" 2].getLast? =
        some le ∧
      a.version = le.version :=
  c3_replay_deterministic_last_version
    [AggregateEvent.created "1" 1, AggregateEvent.updated "1" 2] rfl

/-- C4: replay fails exactly on malformed sequences, with the error fixed by
the first violation — the empty sequence gives `emptyLog`, a continuation
first event gives `invalidFirstEvent`, and an initiating event after the
first position gives `invalidSubsequentEvent`. -/
theorem c4_replay_error_taxonomy :
    replay [] = Except.error ReplayError.emptyLog ∧
    (∀ (i : String) (v : Nat) (rest : List AggregateEvent),
      replay (AggregateEvent.updated i v :: rest) =
        Except.error ReplayError.invalidFirstEvent) ∧
    (∀ E : List AggregateEvent,
      (∃ a, replay E = Except.ok a) ↔ wellFormedB E = true) ∧
    (∀ (i : String) (v : Nat) (rest : List AggregateEvent),
      rest.any AggregateEvent.isCreated = true →
      replay (AggregateEvent.created i v :: rest) =
        Except.error ReplayError.invalidSubsequentEvent) := by
  refine ⟨rfl, fun i v rest => rfl, ?_, ?_⟩
  · intro E
    constructor
    · rintro ⟨a, ha⟩
      cases E with
      | nil => simp [replay] at ha
      | cons e rest =>
        cases e with
        | updated i v => simp [replay] at ha
        | created i v =>
          rcases all_updated_or_any_created rest with hall | hany
          · simp [wellFormedB, AggregateEvent.isCreated, hall]
          · rw [show replay (AggregateEvent.created i v :: rest) =
                replayRest ⟨i, v⟩ rest from rfl,
              replayRest_any_created rest _ hany] at ha
            cases ha
    · intro hw
      obtain ⟨a, le, ha, _, _⟩ := replay_wellFormed E hw
      exact ⟨a, ha⟩
  · intro i v rest hany
    rw [show replay (AggregateEvent.created i v :: rest) =
        replayRest ⟨i, v⟩ rest from rfl]
    exact replayRest_any_created rest _ hany

/-- Witness for C4: a second initiating event is rejected as
`invalidSubsequentEvent`. -/
theorem c4_witness :
    replay [AggregateEvent.created "1" 1, AggregateEvent.created "1" 2] =
      Except.error ReplayError.invalidSubsequentEvent :=
  c4_replay_error_taxonomy.2.2.2 "1" 1 [AggregateEvent.created "1" 2] rfl

/-- C5 counterexample: when a marker exists for `id` and a log entry exists
but is empty, `find` propagates the `emptyLog` replay failure instead of
returning absent.  This refutes "returns absent ... when a marker exists but
its event log is empty/missing". -/
theorem c5_counterexample :
    markerOf ⟨[("1", 1)], [("1", [])]⟩ "1" = some 1 ∧
    logOf ⟨[("1", 1)], [("1", [])]⟩ "1" = some [] ∧
    find ⟨[("1", 1)], [("1", [])]⟩ "1" = Except.error ReplayError.emptyLog :=
  ⟨rfl, rfl, rfl⟩

/-- C5 amended: `find` returns absent when no marker entry exists for `id`,
or when a marker exists but the log entry is missing; when a log entry is
present (even an empty one) it returns the result of replaying it, mapped
into `some`, propagating any replay failure — including `emptyLog` for a
present-but-empty log. -/
theorem c5_find_cases (s : RepoState) (id : String) :
    (markerOf s id = none → find s id = Except.ok none) ∧
    (markerOf s id ≠ none → logOf s id = none → find s id = Except.ok none) ∧
    (∀ L, markerOf s id ≠ none → logOf s id = some L →
      find s id = (replay L).map some) := by
  unfold find markerOf logOf
  cases hfa : s.aggregates.find? (fun it => it.fst == id) with
  | none =>
    exact ⟨fun _ => rfl, fun hmm _ => absurd rfl hmm, fun L hmm _ => absurd rfl hmm⟩
  | some p =>
    cases hfe : s.events.find? (fun it => it.fst == id) with
    | none =>
      refine ⟨fun hc => ?_, fun _ _ => rfl, fun L _ hlog => ?_⟩
      · simp at hc
      · simp at hlog
    | some q =>
      obtain ⟨qk, qevs⟩ := q
      refine ⟨fun hc => ?_, fun _ hc => ?_, fun L _ hlog => ?_⟩
      · simp at hc
      · simp at hc
      · simp only [Option.map_some'] at hlog
        injection hlog with h1
        subst h1
        rfl

/-- Witness for C5's amended theorem: a present log is replayed. -/
theorem c5_witness :
    find ⟨[("1", 1)], [("1", [AggregateEvent.created "1" 1])]⟩ "1" =
      (replay [AggregateEvent.created "1" 1]).map some :=
  (c5_find_cases ⟨[("1", 1)], [("1", [AggregateEvent.created "1" 1])]⟩ "1").2.2
    [AggregateEvent.created "1" 1] (Option.some_ne_none 1) rfl

/-- C8 counterexample: a successful extend may move the marker downwards.
From marker 5, storing a last event of version 3 with expected version 5
succeeds and sets the marker to 3, which is not strictly greater than 5.
This refutes "that new marker value is strictly greater than v". -/
theorem c8_counterexample :
    (store ⟨[("1", 5)], []⟩ "1" (some 5) [AggregateEvent.updated "1" 3]).fst =
      Except.ok () ∧
    markerOf (store ⟨[("1", 5)], []⟩ "1" (some 5)
      [AggregateEvent.updated "1" 3]).snd "1" = some 3 ∧
    ¬ (5 : Nat) < 3 :=
  ⟨rfl, rfl, by decide⟩

/-- C8 amended: a successful extend `store id (some v) E` (E non-empty) found
the marker for `id` equal to `v` and moves it to the version of the last event
of `E`; nothing in the code makes the new value strictly greater than `v` —
that holds only when the supplied events carry larger versions. -/
theorem c8_extend_moves_marker_to_last_version (s : RepoState) (id : String)
    (v : Nat) (E : List AggregateEvent) (le : AggregateEvent)
    (hE : E.getLast? = some le)
    (hok : (store s id (some v) E).fst = Except.ok ()) :
    markerOf s id = some v ∧
    markerOf (store s id (some v) E).snd id = some le.version := by
  by_cases hm : markerOf s id = some v
  · refine ⟨hm, ?_⟩
    rw [store_update_ok s id v E le hE hm]
    have hp : ∃ p, s.aggregates.find? (fun it => it.fst == id) = some p := by
      unfold markerOf at hm
      cases hfind : s.aggregates.find? (fun it => it.fst == id) with
      | none => rw [hfind] at hm; simp at hm
      | some p => exact ⟨p, rfl⟩
    obtain ⟨p, hp⟩ := hp
    unfold markerOf
    simp [setMarker_find?, hp]
  · rw [store_update_conflict s id v E le hE hm] at hok
    simp at hok

/-- Witness for C8's amended theorem at a concrete extend. -/
theorem c8_witness :
    markerOf ⟨[("1", 1)], []⟩ "1" = some 1 ∧
    markerOf (store ⟨[("1", 1)], []⟩ "1" (some 1)
      [AggregateEvent.updated "1" 2]).snd "1" =
        some (AggregateEvent.updated "1" 2).version :=
  c8_extend_moves_marker_to_last_version ⟨[("1", 1)], []⟩ "1" 1
    [AggregateEvent.updated "1" 2] (AggregateEvent.updated "1" 2) rfl rfl

/-- C9 counterexample: two store calls on the same identity with the same
expected version `some 5`, each with a non-empty event list, executed one
after the other (the mutex serializes any race): both succeed, because the
winning call writes version 5 back, so the loser's check still passes.  This
refutes "exactly one succeeds and the other fails with VersionConflict". -/
theorem c9_counterexample :
    (store ⟨[("1", 5)], []⟩ "1" (some 5) [AggregateEvent.updated "1" 5]).fst =
      Except.ok () ∧
    (store (store ⟨[("1", 5)], []⟩ "1" (some 5)
        [AggregateEvent.updated "1" 5]).snd "1" (some 5)
        [AggregateEvent.updated "1" 5]).fst = Except.ok () :=
  ⟨rfl, rfl⟩

/-- C9 amended: `store` holds the repository mutex for its whole body, so two
racing calls execute in one of the two serial orders.  For either order
(stated here for one; the other is this statement with the two event lists
swapped): if the marker for `id` is `v` and the first call's last event has a
version different from `v`, the first call succeeds and the second fails with
`versionConflict`, leaving the final marker at the winner's last event's
version.  When the winner writes `v` itself back, both calls succeed instead
(see the counterexample). -/
theorem c9_serialized_race (s : RepoState) (id : String) (v : Nat)
    (E1 E2 : List AggregateEvent) (l1 : AggregateEvent)
    (h1 : E1.getLast? = some l1) (h2 : E2 ≠ [])
    (hm : markerOf s id = some v) (hv : l1.version ≠ v) :
    (store s id (some v) E1).fst = Except.ok () ∧
    (store (store s id (some v) E1).snd id (some v) E2).fst =
      Except.error StoreError.versionConflict ∧
    markerOf (store (store s id (some v) E1).snd id (some v) E2).snd id =
      some l1.version := by
  obtain ⟨l2, hE2⟩ := getLast?_isSome_of_ne_nil E2 h2
  have hp : ∃ p, s.aggregates.find? (fun it => it.fst == id) = some p := by
    unfold markerOf at hm
    cases hfind : s.aggregates.find? (fun it => it.fst == id) with
    | none => rw [hfind] at hm; simp at hm
    | some p => exact ⟨p, rfl⟩
  obtain ⟨p, hp⟩ := hp
  have hm1 : markerOf
      ⟨setMarker s.aggregates id l1.version, appendLog s.events id E1⟩ id =
      some l1.version := by
    unfold markerOf
    simp [setMarker_find?, hp]
  have hm1v : markerOf
      ⟨setMarker s.aggregates id l1.version, appendLog s.events id E1⟩ id ≠
      some v := by
    rw [hm1]
    intro hc
    injection hc with hc
    exact hv hc
  rw [store_update_ok s id v E1 l1 h1 hm,
    store_update_conflict _ id v E2 l2 hE2 hm1v]
  exact ⟨rfl, rfl, hm1⟩

/-- Witness for C9's amended theorem at a concrete serialized race. -/
theorem c9_witness :
    (store ⟨[("1", 1)], []⟩ "1" (some 1) [AggregateEvent.updated "1" 2]).fst =
      Except.ok () ∧
    (store (store ⟨[("1", 1)], []⟩ "1" (some 1)
        [AggregateEvent.updated "1" 2]).snd "1" (some 1)
        [AggregateEvent.updated "1" 2]).fst =
      Except.error StoreError.versionConflict ∧
    markerOf (store (store ⟨[("1", 1)], []⟩ "1" (some 1)
        [AggregateEvent.updated "1" 2]).snd "1" (some 1)
        [AggregateEvent.updated "1" 2]).snd "1" =
      some (AggregateEvent.updated "1" 2).version :=
  c9_serialized_race ⟨[("1", 1)], []⟩ "1" 1 [AggregateEvent.updated "1" 2]
    [AggregateEvent.updated "1" 2] (AggregateEvent.updated "1" 2) rfl
    (List.cons_ne_nil _ _) rfl (by decide)

/-- C10: `store` validates nothing about the supplied events.  In a state
whose marker for `id` equals `v` and whose log for `id` is well-formed,
storing a non-empty `E` containing an initiating event succeeds and appends
`E` verbatim, after which `find id` fails with `invalidSubsequentEvent` —
a successful store can make the stored state unreadable. -/
theorem c10_store_unvalidated_corrupts (s : RepoState) (id : String) (v : Nat)
    (L E : List AggregateEvent) (le : AggregateEvent)
    (hm : markerOf s id = some v) (hL : logOf s id = some L)
    (hwf : wellFormedB L = true) (hE : E.getLast? = some le)
    (hc : E.any AggregateEvent.isCreated = true) :
    (store s id (some v) E).fst = Except.ok () ∧
    logOf (store s id (some v) E).snd id = some (L ++ E) ∧
    find (store s id (some v) E).snd id =
      Except.error ReplayError.invalidSubsequentEvent := by
  rw [store_update_ok s id v E le hE hm]
  have hp : ∃ p, s.aggregates.find? (fun it => it.fst == id) = some p := by
    unfold markerOf at hm
    cases hfind : s.aggregates.find? (fun it => it.fst == id) with
    | none => rw [hfind] at hm; simp at hm
    | some p => exact ⟨p, rfl⟩
  obtain ⟨p, hp⟩ := hp
  unfold logOf at hL
  have hlog2 : ((appendLog s.events id E).find?
      (fun it => it.fst == id)).map Prod.snd = some (L ++ E) := by
    rw [appendLog_find? s.events id E, hL]
    rfl
  obtain ⟨q, hq, hq2⟩ := Option.map_eq_some'.mp hlog2
  obtain ⟨qk, qevs⟩ := q
  rw [show Prod.snd (qk, qevs) = qevs from rfl] at hq2
  subst hq2
  refine ⟨rfl, hlog2, ?_⟩
  obtain ⟨i0, v0, rest, hLeq, hall⟩ := (wellFormedB_iff L).mp hwf
  unfold find
  rw [setMarker_find?, hp]
  simp only [Option.map_some']
  rw [hq, hLeq]
  show Except.map some (replay (AggregateEvent.created i0 v0 :: (rest ++ E))) =
    Except.error ReplayError.invalidSubsequentEvent
  rw [show replay (AggregateEvent.created i0 v0 :: (rest ++ E)) =
      replayRest ⟨i0, v0⟩ (rest ++ E) from rfl]
  rw [replayRest_any_created (rest ++ E) _ (by rw [List.any_append, hc]; simp)]
  rfl

/-- Witness for C10: appending a second initiating event to a healthy stream
succeeds and makes `find` fail. -/
theorem c10_witness :
    (store ⟨[("1", 1)], [("1", [AggregateEvent.created "1" 1])]⟩ "1" (some 1)
      [AggregateEvent.created "1" 2]).fst = Except.ok () ∧
    logOf (store ⟨[("1", 1)], [("1", [AggregateEvent.created "1" 1])]⟩ "1"
      (some 1) [AggregateEvent.created "1" 2]).snd "1" =
        some ([AggregateEvent.created "1" 1] ++ [AggregateEvent.created "1" 2]) ∧
    find (store ⟨[("1", 1)], [("1", [AggregateEvent.created "1" 1])]⟩ "1"
      (some 1) [AggregateEvent.created "1" 2]).snd "1" =
        Except.error ReplayError.invalidSubsequentEvent :=
  c10_store_unvalidated_corrupts
    ⟨[("1", 1)], [("1", [AggregateEvent.created "1" 1])]⟩ "1" 1
    [AggregateEvent.created "1" 1] [AggregateEvent.created "1" 2]
    (AggregateEvent.created "1" 2) rfl rfl rfl rfl rfl

end RustDddTraitsLab
